import Mathlib

/-
Verification of the book_arrange repository's core: the resumable batch
classification engine.  The definitions below are shallow embeddings of the
Python source files:
  - services/ai_categorization_service.py  (oracle client, retry loop, parsing)
  - services/file_manager.py               (relocation, collision handling)
  - database/database_manager.py           (ledger update, transaction)
  - database/models.py                     (task record, progress percentage)
  - utils/task_manager.py                  (task create / update / lookup)
  - book_sort.py                           (batch controller loop)
Machine-level details that the code delegates to its runtime (the JSON
codec, the SQLite transaction, the filesystem) are modelled as explicit
Lean structures; exceptions are modelled with Except.
-/

set_option maxRecDepth 8000
set_option linter.unusedVariables false

namespace BookArrange

/- Brace characters, named to keep string-literal handling uniform. -/
def lbraceC : Char := Char.ofNat 123

def rbraceC : Char := Char.ofNat 125

/- Python exception kinds that the oracle-client code can see. -/
inductive PyExc where
  | jsonDecodeError
  | keyError
  | indexError
  | typeError
  | attributeError
  | timeoutError
  | clientPayloadError
  | valueError
  | zeroDivisionError
  | other (msg : String)
deriving DecidableEq, Repr

/- JSON values, as produced by Python's json.loads. -/
inductive Json where
  | null
  | bool (b : Bool)
  | num (n : Int)
  | str (s : String)
  | arr (elems : List Json)
  | obj (fields : List (String × Json))

/- Whitespace skipped by the JSON decoder and by str.strip. -/
def isWsChar (c : Char) : Bool :=
  c = ' ' || c = '\t' || c = '\n' || c = '\r'

def skipWs : List Char → List Char
  | [] => []
  | c :: cs => if isWsChar c then skipWs cs else c :: cs

/- Decoder for the body of a JSON string literal (after the opening quote).
Returns the decoded characters and the input remaining after the closing
quote.  Escapes beyond the common ones are rejected (never exercised). -/
def parseStringBody : Nat → List Char → Option (List Char × List Char)
  | 0, _ => none
  | _, [] => none
  | fuel + 1, c :: cs =>
    if c = '"' then some ([], cs)
    else if c = '\\' then
      match cs with
      | [] => none
      | e :: cs2 =>
        let dec : Option Char :=
          if e = '"' then some '"'
          else if e = '\\' then some '\\'
          else if e = '/' then some '/'
          else if e = 'n' then some '\n'
          else if e = 't' then some '\t'
          else if e = 'r' then some '\r'
          else none
        match dec with
        | some d => (parseStringBody fuel cs2).map (fun p => (d :: p.1, p.2))
        | none => none
    else (parseStringBody fuel cs).map (fun p => (c :: p.1, p.2))

def isDigitChar (c : Char) : Bool := '0' ≤ c && c ≤ '9'

def digitsToNatAcc : Nat → List Char → Nat × List Char
  | acc, [] => (acc, [])
  | acc, c :: cs =>
    if isDigitChar c then digitsToNatAcc (acc * 10 + (c.toNat - 48)) cs
    else (acc, c :: cs)

/- Parse a run of at least one digit. -/
def parseDigits (cs : List Char) : Option (Nat × List Char) :=
  match cs with
  | [] => none
  | c :: _ =>
    if isDigitChar c then some (digitsToNatAcc 0 cs) else none

/- Check that a list of characters starts with a given keyword. -/
def dropKeyword : List Char → List Char → Option (List Char)
  | [], rest => some rest
  | _, [] => none
  | k :: ks, c :: cs => if c = k then dropKeyword ks cs else none

mutual

/- Recursive-descent JSON value parser, fuelled by input length. -/
def parseValue : Nat → List Char → Option (Json × List Char)
  | 0, _ => none
  | fuel + 1, input =>
    match skipWs input with
    | [] => none
    | c :: cs =>
      if c = '"' then
        (parseStringBody (cs.length + 1) cs).map (fun p => (Json.str ⟨p.1⟩, p.2))
      else if c = lbraceC then
        (parseMembers fuel cs).map (fun p => (Json.obj p.1, p.2))
      else if c = '[' then
        (parseElems fuel cs).map (fun p => (Json.arr p.1, p.2))
      else if c = 't' then
        (dropKeyword ['r', 'u', 'e'] cs).map (fun r => (Json.bool true, r))
      else if c = 'f' then
        (dropKeyword ['a', 'l', 's', 'e'] cs).map (fun r => (Json.bool false, r))
      else if c = 'n' then
        (dropKeyword ['u', 'l', 'l'] cs).map (fun r => (Json.null, r))
      else if c = '-' then
        (parseDigits cs).map (fun p => (Json.num (-(p.1 : Int)), p.2))
      else
        (parseDigits (c :: cs)).map (fun p => (Json.num (p.1 : Int), p.2))

/- Object members, entered just after the opening brace. -/
def parseMembers : Nat → List Char → Option (List (String × Json) × List Char)
  | 0, _ => none
  | fuel + 1, input =>
    match skipWs input with
    | [] => none
    | c :: cs =>
      if c = rbraceC then some ([], cs)
      else if c = '"' then
        match parseStringBody (cs.length + 1) cs with
        | none => none
        | some (key, rest1) =>
          match skipWs rest1 with
          | ':' :: rest2 =>
            match parseValue fuel rest2 with
            | none => none
            | some (v, rest3) =>
              match skipWs rest3 with
              | ',' :: rest4 =>
                (parseMembers fuel rest4).map
                  (fun p => ((⟨key⟩, v) :: p.1, p.2))
              | c2 :: rest4 =>
                if c2 = rbraceC then some ([(⟨key⟩, v)], rest4) else none
              | [] => none
          | _ => none
      else none

/- Array elements, entered just after the opening bracket. -/
def parseElems : Nat → List Char → Option (List Json × List Char)
  | 0, _ => none
  | fuel + 1, input =>
    match skipWs input with
    | [] => none
    | c :: cs =>
      if c = ']' then some ([], cs)
      else
        match parseValue fuel (c :: cs) with
        | none => none
        | some (v, rest1) =>
          match skipWs rest1 with
          | ',' :: rest2 =>
            (parseElems fuel rest2).map (fun p => (v :: p.1, p.2))
          | ']' :: rest2 => some ([v], rest2)
          | _ => none

end

/- Python json.loads: decode the whole string as one JSON value;
anything else raises json.JSONDecodeError. -/
def json_loads (s : String) : Except PyExc Json :=
  match parseValue (s.length + 1) s.data with
  | some (v, rest) =>
    if (skipWs rest).isEmpty then .ok v else .error .jsonDecodeError
  | none => .error .jsonDecodeError

/- Python truthiness of a JSON-decoded value: used by `not data['choices']`. -/
def truthy : Json → Bool
  | .null => false
  | .bool b => b
  | .num n => n ≠ 0
  | .arr xs => !xs.isEmpty
  | .obj kvs => !kvs.isEmpty
  | .str s => !s.isEmpty

/- Python equality test of a JSON value against a string literal. -/
def jsonIsStr (key : String) : Json → Bool
  | .str s => s = key
  | _ => false

/- Python `key in v` for decoded JSON values: dict key lookup, list
membership, substring test on str; TypeError on anything else. -/
def pyContains (v : Json) (key : String) : Except PyExc Bool :=
  match v with
  | .obj kvs => .ok (kvs.any (fun kv => kv.1 = key))
  | .arr xs => .ok (xs.any (jsonIsStr key))
  | .str s => .ok (decide (key.data.IsInfix s.data))
  | _ => .error .typeError

/- Python `v[key]` for a string key: dict lookup (KeyError when absent);
TypeError on every other decoded value. -/
def pySubscrStr (v : Json) (key : String) : Except PyExc Json :=
  match v with
  | .obj kvs =>
    match kvs.find? (fun kv => kv.1 = key) with
    | some kv => .ok kv.2
    | none => .error .keyError
  | _ => .error .typeError

/- Python `v[i]` for a non-negative integer index: list and str indexing
(IndexError out of range); TypeError (or KeyError for dicts) otherwise. -/
def pySubscrNat (v : Json) (i : Nat) : Except PyExc Json :=
  match v with
  | .arr xs =>
    match xs.get? i with
    | some x => .ok x
    | none => .error .indexError
  | .str s =>
    match s.data.get? i with
    | some c => .ok (.str ⟨[c]⟩)
    | none => .error .indexError
  | .obj _ => .error .keyError
  | _ => .error .typeError

/- Salvage regex of _parse_response: the first match of a brace pair whose
interior contains no brace characters (Python re.search of an
open brace, a run of non-brace characters, and a close brace).
splitAtBrace cuts the input at its first brace character. -/
def splitAtBrace : List Char → List Char × List Char
  | [] => ([], [])
  | c :: cs =>
    if c = lbraceC || c = rbraceC then ([], c :: cs)
    else
      let p := splitAtBrace cs
      (c :: p.1, p.2)

def findFlatAux : Nat → List Char → Option (List Char)
  | 0, _ => none
  | _ + 1, [] => none
  | fuel + 1, c :: cs =>
    if c = lbraceC then
      match splitAtBrace cs with
      | (mid, rest) =>
        match rest with
        | r :: rest2 =>
          if r = rbraceC then some (lbraceC :: mid ++ [rbraceC])
          else findFlatAux fuel (r :: rest2)
        | [] => none
    else findFlatAux fuel cs

def findFlat (s : String) : Option String :=
  (findFlatAux (s.length + 1) s.data).map (fun cs => ⟨cs⟩)

/- The salvage branch of _parse_response: extract the first flat brace pair
from the raw response text and decode it; on any failure return the empty
dict (the bare except swallows everything). -/
def salvage_parse (response_text : String) : Json :=
  match findFlat response_text with
  | some sub =>
    match json_loads sub with
    | .ok v => v
    | .error _ => Json.obj []
  | none => Json.obj []

/- str.strip() produces the empty string exactly when every character is
whitespace; `if not content.strip()` only needs that test. -/
def stripIsEmpty (s : String) : Bool := (skipWs s.data).isEmpty

/- Body of _parse_response's try block: decode the envelope, check and
extract choices[0]['message']['content'], then decode the content.
Each Python subscript or attribute failure is an Except error here. -/
def parse_core (response_text : String) : Except PyExc Json := do
  let data ← json_loads response_text
  let hasChoices ← pyContains data "choices"
  if hasChoices then
    let choices ← pySubscrStr data "choices"
    if truthy choices then
      let c0 ← pySubscrNat choices 0
      let message ← pySubscrStr c0 "message"
      let content ← pySubscrStr message "content"
      match content with
      | .str s =>
        if stripIsEmpty s then pure (Json.obj []) else json_loads s
      | _ => .error .attributeError
    else pure (Json.obj [])
  else pure (Json.obj [])

/- AICategorizationService._parse_response: the try body above with its
except clauses.  JSONDecodeError (from either json.loads) triggers the
salvage parse of the raw text; KeyError/IndexError yield the empty dict;
any other exception (e.g. TypeError) propagates to the caller. -/
def parse_response (response_text : String) : Except PyExc Json :=
  match parse_core response_text with
  | .ok v => .ok v
  | .error .jsonDecodeError => .ok (salvage_parse response_text)
  | .error .keyError => .ok (Json.obj [])
  | .error .indexError => .ok (Json.obj [])
  | .error e => .error e

/- Modelled from the spec's words only (for comparison with the source's
salvage regex): locate the first balanced brace-delimited substring of the
raw response — start at the first open brace and scan with a depth counter
until the braces balance. -/
def scanBalanced : Nat → List Char → List Char → Option (List Char)
  | _, _, [] => none
  | depth, acc, c :: cs =>
    if c = lbraceC then scanBalanced (depth + 1) (acc ++ [c]) cs
    else if c = rbraceC then
      if depth = 1 then some (acc ++ [c]) else scanBalanced (depth - 1) (acc ++ [c]) cs
    else scanBalanced depth (acc ++ [c]) cs

def firstBalancedAux : List Char → Option (List Char)
  | [] => none
  | c :: cs =>
    if c = lbraceC then scanBalanced 1 [c] cs else firstBalancedAux cs

def firstBalancedBraceSpec (s : String) : Option String :=
  (firstBalancedAux s.data).map (fun cs => ⟨cs⟩)

/- What one attempt of the oracle round trip can produce, as seen from
inside the try block of _classify_with_deepseek: a transport-level
exception, or an HTTP response with a status and a body text. -/
inductive AttemptOutcome where
  | timeout
  | payloadError
  | exception (msg : String)
  | response (status : Nat) (body : String)

def max_retries : Nat := 3

def retry_delay : Nat := 2

/- The post call as an Except: transport failures are Python exceptions. -/
def attempt_io : AttemptOutcome → Except PyExc (Nat × String)
  | .timeout => .error .timeoutError
  | .payloadError => .error .clientPayloadError
  | .exception msg => .error (.other msg)
  | .response status body => .ok (status, body)

/- What the loop body decides to do after one attempt: return a final
value, or sleep for the given number of seconds and go to the next
attempt of the for loop. -/
inductive BodyAction where
  | done (v : Json)
  | again (delay : Nat)

/- The except clauses of _classify_with_deepseek.  Every exception kind is
handled (TimeoutError, ClientPayloadError, then a catch-all Exception);
none is re-raised, so the handler is total.  A ClientPayloadError retry
delay is scaled by the attempt number; the others use the fixed delay. -/
def handle_exception (e : PyExc) (attempt : Nat) : BodyAction :=
  match e with
  | .timeoutError =>
    if attempt < max_retries - 1 then .again retry_delay else .done (Json.obj [])
  | .clientPayloadError =>
    if attempt < max_retries - 1 then .again (retry_delay * (attempt + 1))
    else .done (Json.obj [])
  | _ =>
    if attempt < max_retries - 1 then .again retry_delay else .done (Json.obj [])

/- One iteration of the for loop of _classify_with_deepseek: the try block
on the attempt's outcome, with the except clauses above.  A 200 response
with a body is parsed and returned (a parse exception falls to the generic
handler); an empty 200 body and non-success statuses retry on the fixed
delay; a 429 sleeps 5 seconds and retries unconditionally. -/
def try_attempt (o : AttemptOutcome) (attempt : Nat) : BodyAction :=
  match attempt_io o with
  | .error e => handle_exception e attempt
  | .ok (status, body) =>
    if status = 200 then
      if body = "" then
        if attempt < max_retries - 1 then .again retry_delay else .done (Json.obj [])
      else
        match parse_response body with
        | .ok v => .done v
        | .error e => handle_exception e attempt
    else if status = 429 then .again 5
    else if attempt < max_retries - 1 then .again retry_delay
    else .done (Json.obj [])

/- Observable summary of one call: the returned mapping, the sleep delays
performed between attempts, and how many HTTP requests were issued. -/
structure OracleRun where
  result : Json
  delays : List Nat
  requests : Nat

/- The for loop over the attempt budget; falling off the end of the loop
returns the empty dict. -/
def classify_attempts (out : Nat → AttemptOutcome) : Nat → Nat → OracleRun
  | _, 0 => ⟨Json.obj [], [], 0⟩
  | attempt, fuel + 1 =>
    match try_attempt (out attempt) attempt with
    | .done v => ⟨v, [], 1⟩
    | .again d =>
      let r := classify_attempts out (attempt + 1) fuel
      ⟨r.result, d :: r.delays, r.requests + 1⟩

/- AICategorizationService.classify_books: an empty title batch returns the
empty dict before any HTTP session is opened; otherwise the retry loop
runs with the full attempt budget.  `out` abstracts the remote oracle's
behaviour on each attempt. -/
def classify_books (titles existing_categories : List String)
    (out : Nat → AttemptOutcome) : OracleRun :=
  if titles.isEmpty then ⟨Json.obj [], [], 0⟩
  else classify_attempts out 0 max_retries

/- A failed attempt, as enumerated by the spec: a timeout, a transport
error, some other exception, a non-success status, or a success whose
payload is empty, malformed, or yields no mapping. -/
def attemptFails (o : AttemptOutcome) : Prop :=
  match o with
  | .response status body =>
    status ≠ 200 ∨ body = "" ∨ parse_response body = .ok (Json.obj []) ∨
      ∃ e, parse_response body = .error e
  | _ => True

/- POSIX path helpers used by FileManager (os.path.basename, dirname,
splitext, join), for paths with the forward-slash separator. -/
def sepC : Char := '/'

/- os.path.basename: everything after the last separator. -/
def posix_basename (p : String) : String :=
  ⟨(p.data.reverse.takeWhile (fun c => !(c = sepC))).reverse⟩

/- os.path.dirname: everything up to the last separator, with trailing
separators stripped unless the head is nothing but separators. -/
def posix_dirname (p : String) : String :=
  let head := (p.data.reverse.dropWhile (fun c => !(c = sepC))).reverse
  if head.isEmpty then ⟨[]⟩
  else if head.all (fun c => c = sepC) then ⟨head⟩
  else ⟨(head.reverse.dropWhile (fun c => c = sepC)).reverse⟩

/- os.path.splitext: split at the last dot that lies after the last
separator, unless every character of the base name before that dot is
itself a dot (dotfiles keep their name whole). -/
def splitext (p : String) : String × String :=
  let r := p.data.reverse
  let extRev := r.takeWhile (fun c => !(c = '.') && !(c = sepC))
  match r.drop extRev.length with
  | [] => (p, "")
  | c :: rest =>
    if c = sepC then (p, "")
    else
      let baseRev := rest.takeWhile (fun c2 => !(c2 = sepC))
      if baseRev.all (fun c2 => c2 = '.') then (p, "")
      else (⟨rest.reverse⟩, ⟨'.' :: extRev.reverse⟩)

/- os.path.join for two components. -/
def posix_join (a b : String) : String :=
  if b.data.head? = some sepC then b
  else if a.isEmpty then b
  else if a.data.getLast? = some sepC then a ++ b
  else a ++ ⟨[sepC]⟩ ++ b

/- Decimal rendering of the collision counter, as Python f-string
formatting produces it. -/
def digitChar (d : Nat) : Char := Char.ofNat (48 + d)

def natToDigits : Nat → Nat → List Char
  | 0, _ => []
  | fuel + 1, n =>
    if n < 10 then [digitChar n]
    else natToDigits fuel (n / 10) ++ [digitChar (n % 10)]

def natRepr (n : Nat) : String := ⟨natToDigits (n + 1) n⟩

/- The candidate path tried by FileManager.handle_duplicate_filename for
counter value k: dirname(target) joined with the base name, an
underscore, the counter and the extension. -/
def dup_candidate (target : String) (k : Nat) : String :=
  let directory := posix_dirname target
  let be := splitext (posix_basename target)
  posix_join directory (be.1 ++ "_" ++ natRepr k ++ be.2)

/- The while loop of handle_duplicate_filename: try candidates with an
incrementing counter until one is not an existing file.  The filesystem is
modelled as the list `fs` of existing paths; the fuel is chosen by the
caller so that a free candidate is always found within it. -/
def dup_loop (fs : List String) (target : String) : Nat → Nat → String
  | counter, 0 => dup_candidate target counter
  | counter, fuel + 1 =>
    let c := dup_candidate target counter
    if c ∈ fs then dup_loop fs target (counter + 1) fuel else c

/- FileManager.handle_duplicate_filename: return the target unchanged when
it does not exist, otherwise run the counter loop starting at 1.  One more
candidate than there are existing files always suffices. -/
def handle_duplicate_filename (fs : List String) (target : String) : String :=
  if target ∈ fs then dup_loop fs target 1 (fs.length + 1) else target

/- database/models.py ClassificationTask.  The two Text columns hold the
JSON-serialized pending and completed path lists; the embedding carries
the lists themselves (serialization round-trips through json.dumps and
json.loads).  Timestamps are not modelled. -/
structure ClassificationTask where
  task_id : String
  total_files : Nat
  processed_files : Nat
  completed_files : List String
  pending_files : List String
  is_completed : Bool
deriving DecidableEq, Repr

/- ClassificationTask.get_progress_percentage, with Python's true division
modelled over the rationals and ZeroDivisionError as the error of the
division primitive. -/
def pyTrueDiv (a b : ℚ) : Except PyExc ℚ :=
  if b = 0 then .error .zeroDivisionError else .ok (a / b)

def get_progress_percentage (total_files processed_files : Nat) :
    Except PyExc ℚ :=
  if total_files = 0 then .ok 0
  else (pyTrueDiv (processed_files : ℚ) (total_files : ℚ)).map (fun q => q * 100)

/- DatabaseManager.create_classification_task builds this record (counts
and flags take their column defaults). -/
def create_classification_task (task_id : String) (files : List String) :
    ClassificationTask :=
  { task_id := task_id
    total_files := files.length
    processed_files := 0
    completed_files := []
    pending_files := files
    is_completed := false }

/- TaskManager.create_task: reject an empty id or an empty file list with
ValueError before touching the store. -/
def create_task (task_id : String) (files : List String) :
    Except PyExc ClassificationTask :=
  if task_id = "" then .error .valueError
  else if files.isEmpty then .error .valueError
  else .ok (create_classification_task task_id files)

/- A SQLAlchemy session over one task row: the attributes as last
committed to storage, and the in-memory attributes of the mapped object.
session.commit makes the in-memory state durable in one transaction or
fails as a whole; session.rollback discards the in-memory changes. -/
structure DbSession where
  persisted : ClassificationTask
  mem : ClassificationTask
deriving DecidableEq, Repr

/- DatabaseManager.update_classification_task: assign the three fields and
the recomputed completion flag on the mapped object, then commit.  On a
storage failure the handler rolls back and re-raises, so the caller sees
the exception and the session holds the prior persisted state. -/
def update_classification_task (commitFails : Bool) (s : DbSession)
    (processed_files : Nat) (completed_files_list pending_files_list : List String) :
    Except (PyExc × DbSession) DbSession :=
  let m := { s.mem with
             processed_files := processed_files
             completed_files := completed_files_list
             pending_files := pending_files_list
             is_completed := decide (pending_files_list.length = 0) }
  if commitFails then
    .error (.other "PersistenceError", { persisted := s.persisted, mem := s.persisted })
  else .ok { persisted := m, mem := m }

/- DatabaseManager.get_task_by_id over a store of task rows. -/
def get_task_by_id (store : List ClassificationTask) (task_id : String) :
    Option ClassificationTask :=
  store.find? (fun t => t.task_id = task_id)

/- TaskManager.update_task_progress: look the task up; a missing id is
reported by returning None (no exception); a storage failure during the
update propagates. -/
def update_task_progress (commitFails : Bool) (store : List ClassificationTask)
    (task_id : String) (processed_files : Nat)
    (completed_files_list pending_files_list : List String) :
    Except PyExc (Option ClassificationTask) :=
  match get_task_by_id store task_id with
  | none => .ok none
  | some t =>
    match update_classification_task commitFails ⟨t, t⟩
        processed_files completed_files_list pending_files_list with
    | .ok s2 => .ok (some s2.persisted)
    | .error e => .error e.1

/- The per-file half of the controller's batch iteration
(book_sort.py _process_classification): relocation plus record update may
raise, but the file is appended to the iteration's completed list on both
the normal and the exception path.  `move_outcome` abstracts what the try
block does for each file. -/
def iteration_completed (move_outcome : String → Except PyExc Unit)
    (batch_files : List String) : List String :=
  batch_files.foldl
    (fun completed_files_list file_path =>
      match move_outcome file_path with
      | .ok _ => completed_files_list ++ [file_path]
      | .error _ => completed_files_list ++ [file_path])
    []

/- One committed iteration of the batch loop: slice the batch off the
pending list, process each file, then commit the new counts and lists
(completed grows by the iteration's outcomes, pending keeps the files not
in them, the flag is recomputed from the new pending list). -/
def process_batch (move_outcome : String → Except PyExc Unit) (batch_size : Nat)
    (t : ClassificationTask) : ClassificationTask :=
  let pending_files_list := t.pending_files
  let batch_files := pending_files_list.take batch_size
  let completed_files_list := iteration_completed move_outcome batch_files
  let completed_count := t.processed_files + completed_files_list.length
  let all_completed := t.completed_files ++ completed_files_list
  let remaining_pending :=
    pending_files_list.filter (fun f => !(completed_files_list.contains f))
  { t with
    processed_files := completed_count
    completed_files := all_completed
    pending_files := remaining_pending
    is_completed := decide (remaining_pending.length = 0) }

/- The while loop guard and breaks: a completed task, or one with no
pending files, ends the loop without another commit. -/
def loop_step (move_outcome : String → Except PyExc Unit) (batch_size : Nat)
    (t : ClassificationTask) : ClassificationTask :=
  if t.is_completed then t
  else if t.pending_files.isEmpty then t
  else process_batch move_outcome batch_size t

/- n iterations of the batch loop; each iteration may see different
per-file outcomes. -/
def run_loop (move_outcomes : Nat → String → Except PyExc Unit)
    (batch_size : Nat) : Nat → ClassificationTask → ClassificationTask
  | 0, t => t
  | n + 1, t => run_loop move_outcomes batch_size n
      (loop_step (move_outcomes n) batch_size t)

/- Invariant of the task ledger maintained by the batch loop (claim C1):
the processed count complements the pending count, the pending list is
duplicate-free, and pending and completed share no element. -/
def TaskInv (t : ClassificationTask) : Prop :=
  t.processed_files + t.pending_files.length = t.total_files
  ∧ t.pending_files.Nodup
  ∧ ∀ f ∈ t.pending_files, f ∉ t.completed_files

/- A match of the salvage regex starts at position i of cs: an open brace,
a run of non-brace characters, and a close brace. -/
def FlatStartAt (cs : List Char) (i : Nat) : Prop :=
  ∃ mid rest, cs.drop i = lbraceC :: (mid ++ rbraceC :: rest)
    ∧ ∀ c ∈ mid, c ≠ lbraceC ∧ c ≠ rbraceC

/- Numeric value of a big-endian digit string (used to invert natRepr). -/
def digitsVal (cs : List Char) : Nat :=
  cs.foldl (fun a c => a * 10 + (c.toNat - 48)) 0

/- A well-formed oracle success body: the OpenAI-chat-style envelope whose
content decodes to the mapping of x.pdf to Fiction. -/
def goodEnvelope : String :=
  "\x7b\"choices\":[\x7b\"message\":\x7b\"content\":\"\x7b\\\"x.pdf\\\":\\\"Fiction\\\"\x7d\"\x7d\x7d]\x7d"

/- Oracle behaviours used in the concrete retry scenarios. -/
def outcomes_429_200 : Nat → AttemptOutcome
  | 0 => .response 429 "rate limited"
  | _ => .response 200 goodEnvelope

def outcomes_429_timeout_200 : Nat → AttemptOutcome
  | 0 => .response 429 "rate limited"
  | 1 => .timeout
  | _ => .response 200 goodEnvelope

def outcomes_429_all_fail : Nat → AttemptOutcome
  | 0 => .response 429 "rate limited"
  | _ => .timeout

/- Malformed top-level responses exercising the salvage parse: one whose
embedded object is flat, and one whose first balanced brace group nests
another group. -/
def salvageExample : String := "oops \x7b\"x.pdf\":\"Fiction\"\x7d"

def nestedExample : String := "oops \x7b\"a\":\x7b\"k\":\"v\"\x7d\x7d"

/- ------------------------------------------------------------------ -/
/- Theorems                                                            -/
/- ------------------------------------------------------------------ -/

/-- Claim C9: calling classify_books with an empty batch of titles returns
the empty mapping immediately: no HTTP request is issued and no retry
attempt (hence no retry delay) is consumed, whatever the oracle would have
done. -/
theorem claim_C9 (existing_categories : List String) (out : Nat → AttemptOutcome) :
    classify_books [] existing_categories out =
      { result := Json.obj [], delays := [], requests := 0 } := rfl

/-- Claim C10: the progress-percentage computation is total.  Python's
true division raises ZeroDivisionError on a zero divisor, but the method
guards total_files = 0 and returns 0.0 there; otherwise it returns
processed_files / total_files * 100.  It never returns an error. -/
theorem claim_C10 (total_files processed_files : Nat) :
    get_progress_percentage total_files processed_files =
      .ok (if total_files = 0 then 0
           else (processed_files : ℚ) / (total_files : ℚ) * 100) := by
  by_cases h : total_files = 0
  · simp [get_progress_percentage, h]
  · have h2 : ((total_files : ℚ)) ≠ 0 := by exact_mod_cast h
    simp [get_progress_percentage, pyTrueDiv, h, h2, Except.map]

/-- Claim C4, counterexample: with an empty store (so the task id is
absent), update_task_progress completes normally with the value None — it
does not raise a TaskNotFound error, refuting the claim that every update
on an absent id raises rather than completing normally. -/
theorem claim_C4_counterexample :
    update_task_progress false [] "task_20240101_000000" 0 [] [] =
      .ok none := rfl

/-- Claim C4, amended: when the given task_id is absent from the store,
update_task_progress logs the miss and returns None; it completes
normally and raises nothing, whether or not storage would have failed. -/
theorem claim_C4 (commitFails : Bool) (store : List ClassificationTask)
    (task_id : String) (processed_files : Nat)
    (completed_files_list pending_files_list : List String)
    (habsent : get_task_by_id store task_id = none) :
    update_task_progress commitFails store task_id processed_files
      completed_files_list pending_files_list = .ok none := by
  unfold update_task_progress
  rw [habsent]

/-- Claim C4 witness: the amended theorem applied to the empty store. -/
theorem claim_C4_witness :
    get_task_by_id [] "task_1" = none
    ∧ update_task_progress true [] "task_1" 3 ["a"] ["b"] = .ok none :=
  ⟨rfl, claim_C4 true [] "task_1" 3 ["a"] ["b"] rfl⟩

/-- Claim C8: the ledger update replaces processed_files, completed_files
and pending_files in one transaction.  On a storage failure the commit
raises after rollback: the error carries a session whose persisted and
in-memory states are both the prior persisted state, so nothing of the
update survives.  On success the persisted row holds exactly the three
given values, is_completed is recomputed as true exactly when the given
pending list is empty, and the other columns are untouched. -/
theorem claim_C8 (s : DbSession) (processed_files : Nat)
    (completed_files_list pending_files_list : List String) :
    (update_classification_task true s processed_files
        completed_files_list pending_files_list =
      .error (.other "PersistenceError", ⟨s.persisted, s.persisted⟩))
    ∧ ∃ s2, update_classification_task false s processed_files
          completed_files_list pending_files_list = .ok s2
        ∧ s2.persisted.processed_files = processed_files
        ∧ s2.persisted.completed_files = completed_files_list
        ∧ s2.persisted.pending_files = pending_files_list
        ∧ s2.persisted.is_completed = pending_files_list.isEmpty
        ∧ s2.persisted.task_id = s.mem.task_id
        ∧ s2.persisted.total_files = s.mem.total_files
        ∧ s2.mem = s2.persisted := by
  refine ⟨rfl, ⟨_, rfl, rfl, rfl, rfl, ?_, rfl, rfl, rfl⟩⟩
  cases pending_files_list <;> rfl

/-- Claim C7: a 429 response sleeps the extended fixed delay of 5 seconds
and retries.  The first conjunct is the general step law: a 429 on any
attempt contributes exactly one 5-second delay, consumes exactly one unit
of the attempt budget, and leaves the remaining attempts (and their fixed
delays) unchanged.  The concrete runs: 429 then success yields the
attempt-2 mapping after exactly one extended delay; a timeout after a 429
still waits the ordinary fixed 2 seconds; and three failures starting with
a 429 exhaust the budget of 3 requests. -/
theorem claim_C7 :
    (∀ (out : Nat → AttemptOutcome) (attempt fuel : Nat) (b : String),
      out attempt = .response 429 b →
      classify_attempts out attempt (fuel + 1) =
        ⟨(classify_attempts out (attempt + 1) fuel).result,
         5 :: (classify_attempts out (attempt + 1) fuel).delays,
         (classify_attempts out (attempt + 1) fuel).requests + 1⟩)
    ∧ classify_books ["x.pdf"] [] outcomes_429_200 =
        ⟨Json.obj [("x.pdf", Json.str "Fiction")], [5], 2⟩
    ∧ classify_books ["x.pdf"] [] outcomes_429_timeout_200 =
        ⟨Json.obj [("x.pdf", Json.str "Fiction")], [5, 2], 3⟩
    ∧ classify_books ["x.pdf"] [] outcomes_429_all_fail =
        ⟨Json.obj [], [5, 2], 3⟩ := by
  refine ⟨?_, rfl, rfl, rfl⟩
  intro out attempt fuel b h
  simp [classify_attempts, try_attempt, attempt_io, h]

/-- Claim C7 witness: the 429 step law applied to the concrete
429-then-200 oracle at attempt 0 with two attempts remaining. -/
theorem claim_C7_witness :
    classify_attempts outcomes_429_200 0 3 =
      ⟨(classify_attempts outcomes_429_200 1 2).result,
       5 :: (classify_attempts outcomes_429_200 1 2).delays,
       (classify_attempts outcomes_429_200 1 2).requests + 1⟩ :=
  claim_C7.1 outcomes_429_200 0 2 "rate limited" rfl

/- Helper for claim C3: the per-file fold appends every file of the batch
to the completed list, whatever each file's outcome, for any starting
accumulator. -/
theorem iteration_completed_go (move_outcome : String → Except PyExc Unit) :
    ∀ (l acc : List String),
      l.foldl
        (fun completed_files_list file_path =>
          match move_outcome file_path with
          | .ok _ => completed_files_list ++ [file_path]
          | .error _ => completed_files_list ++ [file_path])
        acc = acc ++ l := by
  intro l
  induction l with
  | nil => intro acc; simp
  | cons x xs ih =>
    intro acc
    simp only [List.foldl_cons]
    cases move_outcome x <;> simp [ih]

theorem iteration_completed_eq (move_outcome : String → Except PyExc Unit)
    (batch_files : List String) :
    iteration_completed move_outcome batch_files = batch_files := by
  unfold iteration_completed
  simpa using iteration_completed_go move_outcome batch_files []

/-- Claim C3: each file of the batch slice lands in the iteration's
completed-outcome list whether its relocation and record update succeeded
or raised (first conjunct: the outcome list is the whole batch, in order,
for every outcome assignment — so a per-item failure never halts the
batch); and after the iteration's commit no file of the slice remains in
the pending list (second conjunct). -/
theorem claim_C3 (move_outcome : String → Except PyExc Unit)
    (batch_files : List String) (batch_size : Nat) (t : ClassificationTask) :
    iteration_completed move_outcome batch_files = batch_files
    ∧ ∀ f ∈ t.pending_files.take batch_size,
        f ∉ (process_batch move_outcome batch_size t).pending_files := by
  refine ⟨iteration_completed_eq move_outcome batch_files, ?_⟩
  intro f hf hmem
  unfold process_batch at hmem
  simp only [iteration_completed_eq, List.mem_filter] at hmem
  rcases hmem with ⟨-, hcon⟩
  rw [Bool.not_eq_eq_eq_not, Bool.not_true] at hcon
  simp at hcon
  exact hcon hf

/-- Claim C3 witness: a two-file batch in which the second file's
relocation raises; both files end up completed, and the first file of the
slice is gone from pending after the commit. -/
theorem claim_C3_witness :
    iteration_completed (fun f => if f = "b" then .error (.other "boom") else .ok ())
        ["a", "b"] = ["a", "b"]
    ∧ "a" ∉ (process_batch
        (fun f => if f = "b" then .error (.other "boom") else .ok ()) 2
        ⟨"t", 3, 0, [], ["a", "b", "c"], false⟩).pending_files :=
  ⟨(claim_C3 _ ["a", "b"] 2 ⟨"t", 3, 0, [], ["a", "b", "c"], false⟩).1,
   (claim_C3 _ ["a", "b"] 2 ⟨"t", 3, 0, [], ["a", "b", "c"], false⟩).2 "a"
     (by decide)⟩

/- Helper for claim C2: under a failed attempt the loop body either sleeps
and retries or returns the empty dict; it never returns anything else and
(being total) never lets an exception escape the except clauses. -/
theorem try_attempt_of_fails (o : AttemptOutcome) (attempt : Nat)
    (h : attemptFails o) :
    (∃ d, try_attempt o attempt = .again d)
    ∨ try_attempt o attempt = .done (Json.obj []) := by
  cases o with
  | timeout =>
    by_cases ha : attempt < max_retries - 1
    · exact .inl ⟨retry_delay, by simp [try_attempt, attempt_io, handle_exception, ha]⟩
    · exact .inr (by simp [try_attempt, attempt_io, handle_exception, ha])
  | payloadError =>
    by_cases ha : attempt < max_retries - 1
    · exact .inl ⟨retry_delay * (attempt + 1),
        by simp [try_attempt, attempt_io, handle_exception, ha]⟩
    · exact .inr (by simp [try_attempt, attempt_io, handle_exception, ha])
  | exception msg =>
    by_cases ha : attempt < max_retries - 1
    · exact .inl ⟨retry_delay, by simp [try_attempt, attempt_io, handle_exception, ha]⟩
    · exact .inr (by simp [try_attempt, attempt_io, handle_exception, ha])
  | response status body =>
    rcases h with h200 | hbody | hempty | ⟨e, herr⟩
    · by_cases h429 : status = 429
      · exact .inl ⟨5, by simp [try_attempt, attempt_io, h429, h200]⟩
      · by_cases ha : attempt < max_retries - 1
        · exact .inl ⟨retry_delay, by simp [try_attempt, attempt_io, h200, h429, ha]⟩
        · exact .inr (by simp [try_attempt, attempt_io, h200, h429, ha])
    · by_cases h200 : status = 200
      · by_cases ha : attempt < max_retries - 1
        · exact .inl ⟨retry_delay, by simp [try_attempt, attempt_io, h200, hbody, ha]⟩
        · exact .inr (by simp [try_attempt, attempt_io, h200, hbody, ha])
      · by_cases h429 : status = 429
        · exact .inl ⟨5, by simp [try_attempt, attempt_io, h200, h429]⟩
        · by_cases ha : attempt < max_retries - 1
          · exact .inl ⟨retry_delay, by simp [try_attempt, attempt_io, h200, h429, ha]⟩
          · exact .inr (by simp [try_attempt, attempt_io, h200, h429, ha])
    · by_cases h200 : status = 200
      · by_cases hbody : body = ""
        · by_cases ha : attempt < max_retries - 1
          · exact .inl ⟨retry_delay, by simp [try_attempt, attempt_io, h200, hbody, ha]⟩
          · exact .inr (by simp [try_attempt, attempt_io, h200, hbody, ha])
        · exact .inr (by simp [try_attempt, attempt_io, h200, hbody, hempty])
      · by_cases h429 : status = 429
        · exact .inl ⟨5, by simp [try_attempt, attempt_io, h200, h429]⟩
        · by_cases ha : attempt < max_retries - 1
          · exact .inl ⟨retry_delay, by simp [try_attempt, attempt_io, h200, h429, ha]⟩
          · exact .inr (by simp [try_attempt, attempt_io, h200, h429, ha])
    · by_cases h200 : status = 200
      · by_cases hbody : body = ""
        · by_cases ha : attempt < max_retries - 1
          · exact .inl ⟨retry_delay, by simp [try_attempt, attempt_io, h200, hbody, ha]⟩
          · exact .inr (by simp [try_attempt, attempt_io, h200, hbody, ha])
        · by_cases ha : attempt < max_retries - 1
          · refine .inl ?_
            simp only [try_attempt, attempt_io, h200, hbody, herr, if_true,
              if_pos rfl, if_neg hbody]
            cases e with
            | clientPayloadError =>
              exact ⟨retry_delay * (attempt + 1), by simp [handle_exception, ha]⟩
            | timeoutError => exact ⟨retry_delay, by simp [handle_exception, ha]⟩
            | jsonDecodeError => exact ⟨retry_delay, by simp [handle_exception, ha]⟩
            | keyError => exact ⟨retry_delay, by simp [handle_exception, ha]⟩
            | indexError => exact ⟨retry_delay, by simp [handle_exception, ha]⟩
            | typeError => exact ⟨retry_delay, by simp [handle_exception, ha]⟩
            | attributeError => exact ⟨retry_delay, by simp [handle_exception, ha]⟩
            | valueError => exact ⟨retry_delay, by simp [handle_exception, ha]⟩
            | zeroDivisionError => exact ⟨retry_delay, by simp [handle_exception, ha]⟩
            | other msg => exact ⟨retry_delay, by simp [handle_exception, ha]⟩
          · refine .inr ?_
            simp only [try_attempt, attempt_io, h200, hbody, herr, if_true,
              if_pos rfl, if_neg hbody]
            cases e <;> simp [handle_exception, ha]
      · by_cases h429 : status = 429
        · exact .inl ⟨5, by simp [try_attempt, attempt_io, h200, h429]⟩
        · by_cases ha : attempt < max_retries - 1
          · exact .inl ⟨retry_delay, by simp [try_attempt, attempt_io, h200, h429, ha]⟩
          · exact .inr (by simp [try_attempt, attempt_io, h200, h429, ha])

/- Helper for claim C2: when every attempt fails, the loop returns the
empty dict and issues at most one request per remaining attempt. -/
theorem classify_attempts_of_fails (out : Nat → AttemptOutcome)
    (hfail : ∀ i, attemptFails (out i)) :
    ∀ (fuel attempt : Nat),
      (classify_attempts out attempt fuel).result = Json.obj []
      ∧ (classify_attempts out attempt fuel).requests ≤ fuel := by
  intro fuel
  induction fuel with
  | zero => intro attempt; exact ⟨rfl, le_refl 0⟩
  | succ n ih =>
    intro attempt
    rcases try_attempt_of_fails (out attempt) attempt (hfail attempt) with ⟨d, hd⟩ | hdone
    · have h1 := ih (attempt + 1)
      simp only [classify_attempts, hd]
      exact ⟨h1.1, by omega⟩
    · simp only [classify_attempts, hdone]
      exact ⟨by simp, by omega⟩

/-- Claim C2: the classify operation never raises to its caller — the
embedding of its retry loop is a total function because every exception
kind is caught by the except clauses — and when every attempt of the
budget fails (timeout, transport error, other exception, non-success
status, or a success whose payload is empty, malformed or yields no
mapping), it returns the empty mapping after at most 3 requests. -/
theorem claim_C2 (titles existing_categories : List String)
    (out : Nat → AttemptOutcome) (hfail : ∀ i, attemptFails (out i)) :
    (classify_books titles existing_categories out).result = Json.obj []
    ∧ (classify_books titles existing_categories out).requests ≤ max_retries := by
  unfold classify_books
  by_cases h : titles.isEmpty
  · simp [h, max_retries]
  · simp only [h, if_false]
    exact classify_attempts_of_fails out hfail max_retries 0

/-- Claim C2 witness: an oracle that times out on every attempt degrades
to the empty mapping within the budget of 3 requests. -/
theorem claim_C2_witness :
    (classify_books ["a.pdf"] [] (fun _ => .timeout)).result = Json.obj []
    ∧ (classify_books ["a.pdf"] [] (fun _ => .timeout)).requests ≤ max_retries :=
  claim_C2 ["a.pdf"] [] (fun _ => .timeout) (fun i => trivial)

/- Helper for claim C1: with a duplicate-free pending list, removing the
files of the batch slice leaves exactly the dropped tail. -/
theorem filter_not_contains_take (pending : List String) (hnd : pending.Nodup)
    (n : Nat) :
    pending.filter (fun f => !((pending.take n).contains f)) =
      pending.drop n := by
  obtain ⟨tk, htk⟩ : ∃ tk, pending.take n = tk := ⟨_, rfl⟩
  obtain ⟨dr, hdr⟩ : ∃ dr, pending.drop n = dr := ⟨_, rfl⟩
  have hpd : pending = tk ++ dr := by rw [← htk, ← hdr, List.take_append_drop]
  rw [htk, hdr, hpd]
  rw [hpd, List.nodup_append] at hnd
  rw [List.filter_append]
  have h1 : tk.filter (fun f => !(tk.contains f)) = [] := by
    rw [List.filter_eq_nil_iff]
    intro a ha
    simp [ha]
  have h2 : dr.filter (fun f => !(tk.contains f)) = dr := by
    rw [List.filter_eq_self]
    intro a ha
    have hnot : a ∉ tk := fun hmem => hnd.2.2 hmem ha
    simp [hnot]
  rw [h1, h2, List.nil_append]

/- Helper for claim C1: one committed batch iteration preserves the ledger
invariant. -/
theorem inv_process_batch (move_outcome : String → Except PyExc Unit)
    (batch_size : Nat) (t : ClassificationTask) (h : TaskInv t) :
    TaskInv (process_batch move_outcome batch_size t) := by
  obtain ⟨hlen, hnd, hdisj⟩ := h
  have hsplit : (t.pending_files.take batch_size ++
      t.pending_files.drop batch_size).Nodup := by
    rwa [List.take_append_drop]
  rw [List.nodup_append] at hsplit
  unfold process_batch
  simp only [iteration_completed_eq]
  rw [filter_not_contains_take t.pending_files hnd batch_size]
  refine ⟨?_, ?_, ?_⟩
  · simp only [List.length_take, List.length_drop]
    omega
  · exact (List.drop_sublist batch_size t.pending_files).nodup hnd
  · intro f hf
    have hfp : f ∈ t.pending_files := List.mem_of_mem_drop hf
    simp only [List.mem_append]
    rintro (hc | htake)
    · exact hdisj f hfp hc
    · exact hsplit.2.2 htake hf

/- Helper for claim C1: the loop guard and breaks also preserve the
invariant. -/
theorem inv_loop_step (move_outcome : String → Except PyExc Unit)
    (batch_size : Nat) (t : ClassificationTask) (h : TaskInv t) :
    TaskInv (loop_step move_outcome batch_size t) := by
  unfold loop_step
  split
  · exact h
  · split
    · exact h
    · exact inv_process_batch move_outcome batch_size t h

theorem inv_run_loop (move_outcomes : Nat → String → Except PyExc Unit)
    (batch_size : Nat) :
    ∀ (n : Nat) (t : ClassificationTask), TaskInv t →
      TaskInv (run_loop move_outcomes batch_size n t) := by
  intro n
  induction n with
  | zero => intro t h; exact h
  | succ m ih =>
    intro t h
    exact ih _ (inv_loop_step (move_outcomes m) batch_size t h)

/-- Claim C1: starting from a freshly created task over a duplicate-free
discovered file list, after every ledger state the batch loop commits,
processed_files equals total_files minus the number of pending files, and
the pending and completed lists share no element — for every batch size,
every iteration count and every assignment of per-file outcomes. -/
theorem claim_C1 (task_id : String) (files : List String) (hnd : files.Nodup)
    (move_outcomes : Nat → String → Except PyExc Unit) (batch_size n : Nat) :
    (run_loop move_outcomes batch_size n
        (create_classification_task task_id files)).processed_files =
      (run_loop move_outcomes batch_size n
        (create_classification_task task_id files)).total_files -
      (run_loop move_outcomes batch_size n
        (create_classification_task task_id files)).pending_files.length
    ∧ ∀ f ∈ (run_loop move_outcomes batch_size n
        (create_classification_task task_id files)).pending_files,
        f ∉ (run_loop move_outcomes batch_size n
          (create_classification_task task_id files)).completed_files := by
  have hinv0 : TaskInv (create_classification_task task_id files) := by
    refine ⟨by simp [create_classification_task], hnd, ?_⟩
    intro f hf
    simp [create_classification_task]
  obtain ⟨h1, h2, h3⟩ := inv_run_loop move_outcomes batch_size n _ hinv0
  exact ⟨by omega, h3⟩

/-- Claim C1 witness: a three-file task processed one committed batch of
size two, with the second file's relocation raising. -/
theorem claim_C1_witness :
    List.Nodup ["a", "b", "c"]
    ∧ ((run_loop (fun _ f => if f = "b" then .error (.other "boom") else .ok ())
          2 1 (create_classification_task "t" ["a", "b", "c"])).processed_files =
        (run_loop (fun _ f => if f = "b" then .error (.other "boom") else .ok ())
          2 1 (create_classification_task "t" ["a", "b", "c"])).total_files -
        (run_loop (fun _ f => if f = "b" then .error (.other "boom") else .ok ())
          2 1 (create_classification_task "t" ["a", "b", "c"])).pending_files.length) :=
  ⟨by decide,
   (claim_C1 "t" ["a", "b", "c"] (by decide)
     (fun _ f => if f = "b" then .error (.other "boom") else .ok ()) 2 1).1⟩

/- Helpers for claim C5: the decimal rendering of the counter is
injective, hence so is the candidate-path function, and a free candidate
exists among any fs.length + 1 consecutive counters. -/
theorem digitChar_toNat (d : Nat) (h : d < 10) : (digitChar d).toNat = 48 + d := by
  unfold digitChar
  interval_cases d <;> rfl

theorem digitsVal_append (xs : List Char) (c : Char) :
    digitsVal (xs ++ [c]) = digitsVal xs * 10 + (c.toNat - 48) := by
  unfold digitsVal
  rw [List.foldl_append]
  rfl

theorem natToDigits_val :
    ∀ (fuel n : Nat), n < 10 ^ fuel → digitsVal (natToDigits fuel n) = n := by
  intro fuel
  induction fuel with
  | zero =>
    intro n hn
    interval_cases n
    rfl
  | succ m ih =>
    intro n hn
    by_cases h10 : n < 10
    · simp only [natToDigits, h10, if_true]
      show digitsVal ([] ++ [digitChar n]) = n
      rw [digitsVal_append, digitChar_toNat n h10]
      simp [digitsVal]
    · simp only [natToDigits, h10, if_false]
      rw [digitsVal_append]
      have hdiv : n / 10 < 10 ^ m := by
        rw [Nat.div_lt_iff_lt_mul (by norm_num)]
        calc n < 10 ^ (m + 1) := hn
        _ = 10 ^ m * 10 := by rw [pow_succ]
      rw [ih (n / 10) hdiv, digitChar_toNat (n % 10) (Nat.mod_lt n (by norm_num))]
      have := Nat.div_add_mod n 10
      omega

theorem lt_ten_pow_succ (n : Nat) : n < 10 ^ (n + 1) := by
  calc n < 2 ^ n := Nat.lt_two_pow n
  _ ≤ 10 ^ n := Nat.pow_le_pow_left (by norm_num) n
  _ ≤ 10 ^ (n + 1) := Nat.pow_le_pow_right (by norm_num) (Nat.le_succ n)

theorem natRepr_injective : Function.Injective natRepr := by
  intro a b h
  have hd : natToDigits (a + 1) a = natToDigits (b + 1) b := by
    injection h
  have ha := natToDigits_val (a + 1) a (lt_ten_pow_succ a)
  have hb := natToDigits_val (b + 1) b (lt_ten_pow_succ b)
  rw [← ha, ← hb, hd]

theorem string_append_data (x y : String) : (x ++ y).data = x.data ++ y.data := rfl

/- The head character of a collision-candidate file name does not depend
on the counter. -/
theorem dup_name_head (b e : String) (j k : Nat) :
    (b ++ "_" ++ natRepr j ++ e).data.head? =
      (b ++ "_" ++ natRepr k ++ e).data.head? := by
  simp only [string_append_data]
  cases b.data <;> rfl

theorem dup_name_inj (b e : String) (j k : Nat)
    (h : b ++ "_" ++ natRepr j ++ e = b ++ "_" ++ natRepr k ++ e) : j = k := by
  have hd : b.data ++ ('_' :: ((natRepr j).data ++ e.data)) =
      b.data ++ ('_' :: ((natRepr k).data ++ e.data)) := by
    have := congrArg String.data h
    simpa [string_append_data] using this
  have h2 := List.append_cancel_left hd
  have h3 : (natRepr j).data ++ e.data = (natRepr k).data ++ e.data := by
    injection h2
  have h4 : (natRepr j).data = (natRepr k).data := List.append_cancel_right h3
  have h5 : natRepr j = natRepr k := by
    show (⟨(natRepr j).data⟩ : String) = ⟨(natRepr k).data⟩
    rw [h4]
  exact natRepr_injective h5

theorem posix_join_inj_of_head (d n1 n2 : String)
    (hh : n1.data.head? = n2.data.head?)
    (hj : posix_join d n1 = posix_join d n2) : n1 = n2 := by
  have hswap : (n2.data.head? = some sepC) = (n1.data.head? = some sepC) := by
    rw [hh]
  unfold posix_join at hj
  simp only [hswap] at hj
  by_cases h1 : n1.data.head? = some sepC
  · rw [if_pos h1, if_pos h1] at hj
    exact hj
  · rw [if_neg h1, if_neg h1] at hj
    by_cases hde : d.isEmpty
    · rw [if_pos hde, if_pos hde] at hj
      exact hj
    · rw [if_neg hde, if_neg hde] at hj
      by_cases hdl : d.data.getLast? = some sepC
      · rw [if_pos hdl, if_pos hdl] at hj
        have := congrArg String.data hj
        simp only [string_append_data] at this
        have h2 := List.append_cancel_left this
        show (⟨n1.data⟩ : String) = ⟨n2.data⟩
        rw [h2]
      · rw [if_neg hdl, if_neg hdl] at hj
        have := congrArg String.data hj
        simp only [string_append_data, List.append_assoc] at this
        have h2 := List.append_cancel_left (List.append_cancel_left this)
        show (⟨n1.data⟩ : String) = ⟨n2.data⟩
        rw [h2]

theorem dup_candidate_injective (target : String) :
    Function.Injective (dup_candidate target) := by
  intro j k h
  unfold dup_candidate at h
  exact dup_name_inj _ _ j k
    (posix_join_inj_of_head _ _ _ (dup_name_head _ _ j k) h)

/- Pigeonhole: among fuel consecutive counters with fuel > fs.length, some
candidate path is not an existing file. -/
theorem exists_free_candidate (fs : List String) (target : String)
    (counter fuel : Nat) (hf : fs.length < fuel) :
    ∃ j, counter ≤ j ∧ j < counter + fuel ∧ dup_candidate target j ∉ fs := by
  by_contra hcon
  push_neg at hcon
  have hinj : Function.Injective (fun i : ℕ => dup_candidate target (counter + i)) := by
    intro i1 i2 hi
    have := dup_candidate_injective target hi
    omega
  have hsub : (Finset.range fuel).image
      (fun i => dup_candidate target (counter + i)) ⊆ fs.toFinset := by
    intro x hx
    rw [Finset.mem_image] at hx
    obtain ⟨i, hi, hxi⟩ := hx
    rw [Finset.mem_range] at hi
    rw [List.mem_toFinset, ← hxi]
    exact hcon (counter + i) (by omega) (by omega)
  have hcard := Finset.card_le_card hsub
  rw [Finset.card_image_of_injective _ hinj, Finset.card_range] at hcard
  have := fs.toFinset_card_le
  omega

/- The counter loop returns the first free candidate at or after its
starting counter, provided a free candidate lies within the fuel. -/
theorem dup_loop_spec (fs : List String) (target : String) :
    ∀ (fuel counter : Nat),
      (∃ j, counter ≤ j ∧ j < counter + fuel ∧ dup_candidate target j ∉ fs) →
      ∃ k, counter ≤ k
        ∧ dup_loop fs target counter fuel = dup_candidate target k
        ∧ dup_candidate target k ∉ fs
        ∧ ∀ j, counter ≤ j → j < k → dup_candidate target j ∈ fs := by
  intro fuel
  induction fuel with
  | zero =>
    intro counter h
    obtain ⟨j, hj1, hj2, _⟩ := h
    omega
  | succ m ih =>
    intro counter h
    by_cases hmem : dup_candidate target counter ∈ fs
    · have hnext : ∃ j, counter + 1 ≤ j ∧ j < counter + 1 + m ∧
          dup_candidate target j ∉ fs := by
        obtain ⟨j, hj1, hj2, hj3⟩ := h
        refine ⟨j, ?_, by omega, hj3⟩
        rcases Nat.eq_or_lt_of_le hj1 with heq | hlt
        · exact absurd hmem (heq ▸ hj3)
        · omega
      obtain ⟨k, hk1, hk2, hk3, hk4⟩ := ih (counter + 1) hnext
      refine ⟨k, by omega, ?_, hk3, ?_⟩
      · simp only [dup_loop, hmem, if_pos]
        exact hk2
      · intro j hj1 hj2
        rcases Nat.eq_or_lt_of_le hj1 with heq | hlt
        · exact heq ▸ hmem
        · exact hk4 j (by omega) hj2
    · refine ⟨counter, le_refl _, ?_, hmem, fun j hj1 hj2 => absurd hj1 (by omega)⟩
      simp only [dup_loop, hmem, if_neg]
      simp [hmem]

/-- Claim C5: collision handling is deterministic (it is a function of the
existing files and the target) and never overwrites: the chosen path is
never an existing file; a target that does not collide is kept; a
colliding target gets the first free candidate of the form name_k.ext
with the counter increasing from 1.  Concretely, with a.pdf already in
the destination a second a.pdf resolves to a_1.pdf, and with a.pdf and
a_1.pdf present a third resolves to a_2.pdf. -/
theorem claim_C5 :
    (∀ (fs : List String) (target : String),
      handle_duplicate_filename fs target ∉ fs
      ∧ (target ∉ fs → handle_duplicate_filename fs target = target)
      ∧ (target ∈ fs → ∃ k, 1 ≤ k
          ∧ handle_duplicate_filename fs target = dup_candidate target k
          ∧ ∀ j, 1 ≤ j → j < k → dup_candidate target j ∈ fs))
    ∧ handle_duplicate_filename ["d/a.pdf"] "d/a.pdf" = "d/a_1.pdf"
    ∧ handle_duplicate_filename ["d/a.pdf", "d/a_1.pdf"] "d/a.pdf" = "d/a_2.pdf" := by
  refine ⟨?_, by decide, by decide⟩
  intro fs target
  by_cases hmem : target ∈ fs
  · have hfree := exists_free_candidate fs target 1 (fs.length + 1) (by omega)
    obtain ⟨k, hk1, hk2, hk3, hk4⟩ := dup_loop_spec fs target (fs.length + 1) 1 hfree
    have hres : handle_duplicate_filename fs target = dup_candidate target k := by
      unfold handle_duplicate_filename
      rw [if_pos hmem]
      exact hk2
    exact ⟨by rw [hres]; exact hk3, fun habs => absurd hmem habs,
      fun _ => ⟨k, hk1, hres, hk4⟩⟩
  · have hres : handle_duplicate_filename fs target = target := by
      unfold handle_duplicate_filename
      rw [if_neg hmem]
    exact ⟨by rw [hres]; exact hmem, fun _ => hres, fun habs => absurd habs hmem⟩

/-- Claim C5 witness: the general law applied to a destination already
holding d/a.pdf — the chosen path exists among neither of the existing
files, and the colliding branch applies. -/
theorem claim_C5_witness :
    handle_duplicate_filename ["d/a.pdf", "d/a_1.pdf"] "d/a.pdf"
      ∉ ["d/a.pdf", "d/a_1.pdf"]
    ∧ ("d/a.pdf" ∈ ["d/a.pdf", "d/a_1.pdf"] → ∃ k, 1 ≤ k
        ∧ handle_duplicate_filename ["d/a.pdf", "d/a_1.pdf"] "d/a.pdf" =
            dup_candidate "d/a.pdf" k
        ∧ ∀ j, 1 ≤ j → j < k → dup_candidate "d/a.pdf" j ∈ ["d/a.pdf", "d/a_1.pdf"]) :=
  ⟨(claim_C5.1 ["d/a.pdf", "d/a_1.pdf"] "d/a.pdf").1,
   (claim_C5.1 ["d/a.pdf", "d/a_1.pdf"] "d/a.pdf").2.2⟩

/- Helpers for claim C6. -/
theorem splitAtBrace_spec (cs : List Char) :
    cs = (splitAtBrace cs).1 ++ (splitAtBrace cs).2
    ∧ (∀ c ∈ (splitAtBrace cs).1, c ≠ lbraceC ∧ c ≠ rbraceC)
    ∧ ((splitAtBrace cs).2 = []
        ∨ ∃ r rest2, (splitAtBrace cs).2 = r :: rest2
            ∧ (r = lbraceC ∨ r = rbraceC)) := by
  induction cs with
  | nil => exact ⟨rfl, by simp [splitAtBrace], .inl rfl⟩
  | cons c cs ih =>
    by_cases hb : (c = lbraceC || c = rbraceC) = true
    · rw [show splitAtBrace (c :: cs) = ([], c :: cs) from by
        simp only [splitAtBrace]; rw [if_pos hb]]
      refine ⟨rfl, by simp, .inr ⟨c, cs, rfl, ?_⟩⟩
      simpa using hb
    · rw [show splitAtBrace (c :: cs) =
          (c :: (splitAtBrace cs).1, (splitAtBrace cs).2) from by
        simp only [splitAtBrace]; rw [if_neg hb]]
      obtain ⟨ih1, ih2, ih3⟩ := ih
      have hcnb : c ≠ lbraceC ∧ c ≠ rbraceC := by
        simpa using hb
      refine ⟨?_, ?_, ih3⟩
      · rw [List.cons_append, ← ih1]
      · intro x hx
        rcases List.mem_cons.mp hx with hxc | hxm
        · exact hxc ▸ hcnb
        · exact ih2 x hxm

/- The first brace character of a character list is unique: two
decompositions into a brace-free prefix and a brace agree. -/
theorem first_brace_unique :
    ∀ (m1 m2 t1 t2 : List Char) (b1 b2 : Char),
      m1 ++ b1 :: t1 = m2 ++ b2 :: t2 →
      (∀ c ∈ m1, c ≠ lbraceC ∧ c ≠ rbraceC) →
      (∀ c ∈ m2, c ≠ lbraceC ∧ c ≠ rbraceC) →
      (b1 = lbraceC ∨ b1 = rbraceC) →
      (b2 = lbraceC ∨ b2 = rbraceC) →
      m1 = m2 ∧ b1 = b2 ∧ t1 = t2 := by
  intro m1
  induction m1 with
  | nil =>
    intro m2 t1 t2 b1 b2 heq hm1 hm2 hb1 hb2
    cases m2 with
    | nil =>
      simp only [List.nil_append, List.cons.injEq] at heq
      exact ⟨rfl, heq.1, heq.2⟩
    | cons c m2' =>
      simp only [List.nil_append, List.cons_append, List.cons.injEq] at heq
      have hc : c = b1 := heq.1.symm
      have := hm2 c (List.mem_cons_self c m2')
      rcases hb1 with h | h
      · exact absurd (hc.trans h) this.1
      · exact absurd (hc.trans h) this.2
  | cons a m1' ih =>
    intro m2 t1 t2 b1 b2 heq hm1 hm2 hb1 hb2
    cases m2 with
    | nil =>
      simp only [List.cons_append, List.nil_append, List.cons.injEq] at heq
      have ha : a = b2 := heq.1
      have := hm1 a (List.mem_cons_self a m1')
      rcases hb2 with h | h
      · exact absurd (ha.trans h) this.1
      · exact absurd (ha.trans h) this.2
    | cons c m2' =>
      simp only [List.cons_append, List.cons.injEq] at heq
      obtain ⟨hac, htail⟩ := heq
      obtain ⟨hm, hb, ht⟩ := ih m2' t1 t2 b1 b2 htail
        (fun x hx => hm1 x (List.mem_cons_of_mem a hx))
        (fun x hx => hm2 x (List.mem_cons_of_mem c hx)) hb1 hb2
      exact ⟨by rw [hac, hm], hb, ht⟩

/- The salvage search is sound and minimal: a found substring is a flat
brace pair occurring in the input, and no flat brace pair starts earlier. -/
theorem findFlatAux_spec :
    ∀ (fuel : Nat) (cs sub : List Char), findFlatAux fuel cs = some sub →
      ∃ pre mid post,
        sub = lbraceC :: (mid ++ [rbraceC])
        ∧ (∀ c ∈ mid, c ≠ lbraceC ∧ c ≠ rbraceC)
        ∧ cs = pre ++ sub ++ post
        ∧ ∀ i, FlatStartAt cs i → pre.length ≤ i := by
  intro fuel
  induction fuel with
  | zero =>
    intro cs sub h
    exact absurd h (by simp [findFlatAux])
  | succ m ih =>
    intro cs sub h
    cases cs with
    | nil => exact absurd h (by simp [findFlatAux])
    | cons c cs2 =>
      by_cases hc : c = lbraceC
      · subst hc
        obtain ⟨mid, rest, hsp⟩ :
            ∃ mid rest, splitAtBrace cs2 = (mid, rest) := ⟨_, _, rfl⟩
        have hcs2 : cs2 = mid ++ rest := by
          have h' := (splitAtBrace_spec cs2).1
          rw [hsp] at h'
          exact h'
        have hmidnb : ∀ x ∈ mid, x ≠ lbraceC ∧ x ≠ rbraceC := by
          have h' := (splitAtBrace_spec cs2).2.1
          rw [hsp] at h'
          exact h'
        have hrestsh : rest = []
            ∨ ∃ r rest2, rest = r :: rest2 ∧ (r = lbraceC ∨ r = rbraceC) := by
          have h' := (splitAtBrace_spec cs2).2.2
          rw [hsp] at h'
          exact h'
        rcases hrestsh with hre | ⟨r, rest2, hr, hbr⟩
        · subst hre
          exact absurd h (by simp [findFlatAux, hsp])
        · subst hr
          by_cases hrb : r = rbraceC
          · subst hrb
            have hred : findFlatAux (m + 1) (lbraceC :: cs2) =
                some (lbraceC :: mid ++ [rbraceC]) := by
              simp [findFlatAux, hsp]
            rw [hred] at h
            have hsub : lbraceC :: mid ++ [rbraceC] = sub := by
              injection h
            refine ⟨[], mid, rest2, hsub.symm, hmidnb, ?_, fun i _ => Nat.zero_le i⟩
            rw [hcs2, ← hsub]
            simp
          · have hrl : r = lbraceC := hbr.resolve_right hrb
            subst hrl
            have h2 : findFlatAux m (lbraceC :: rest2) = some sub := by
              simpa [findFlatAux, hsp, hrb] using h
            obtain ⟨pre2, mid2, post, hsub, hmid2, hrl2, hmin⟩ := ih _ sub h2
            refine ⟨lbraceC :: (mid ++ pre2), mid2, post, hsub, hmid2, ?_, ?_⟩
            · rw [hcs2, hrl2]
              simp
            · intro i hflat
              by_cases hi0 : i = 0
              · subst hi0
                obtain ⟨mid3, rest3, hdrop, hmid3⟩ := hflat
                simp only [List.drop_zero] at hdrop
                have hcseq : cs2 = mid3 ++ rbraceC :: rest3 := by
                  injection hdrop with _ h'
                have := first_brace_unique mid3 mid rest3 rest2
                  rbraceC lbraceC (by rw [← hcseq, hcs2]) hmid3 hmidnb
                  (.inr rfl) (.inl rfl)
                exact absurd this.2.1 (by decide)
              · by_cases hile : i ≤ mid.length
                · exfalso
                  obtain ⟨mid3, rest3, hdrop, hmid3⟩ := hflat
                  obtain ⟨i', hi'⟩ : ∃ i', i = i' + 1 :=
                    ⟨i - 1, by omega⟩
                  subst hi'
                  rw [List.drop_succ_cons, hcs2,
                    List.drop_append_eq_append_drop] at hdrop
                  have hzero : i' - mid.length = 0 := by omega
                  rw [hzero, List.drop_zero] at hdrop
                  cases hdm : mid.drop i' with
                  | nil =>
                    have := congrArg List.length hdm
                    simp only [List.length_drop, List.length_nil] at this
                    omega
                  | cons d ds =>
                    rw [hdm, List.cons_append] at hdrop
                    have hd : d = lbraceC := by
                      injection hdrop with h' _
                    have hdin : d ∈ mid :=
                      List.mem_of_mem_drop (hdm ▸ List.mem_cons_self d ds)
                    exact (hmidnb d hdin).1 hd
                · obtain ⟨mid3, rest3, hdrop, hmid3⟩ := hflat
                  obtain ⟨j, hij⟩ : ∃ j, i = (mid.length + 1) + j :=
                    ⟨i - mid.length - 1, by omega⟩
                  have hdi : (lbraceC :: cs2).drop i =
                      (lbraceC :: rest2).drop j := by
                    rw [hcs2, hij]
                    rw [show lbraceC :: (mid ++ lbraceC :: rest2) =
                        (lbraceC :: mid) ++ (lbraceC :: rest2) from rfl]
                    rw [show mid.length + 1 + j = (lbraceC :: mid).length + j
                        from by simp]
                    exact List.drop_append j
                  have hfs : FlatStartAt (lbraceC :: rest2) j :=
                    ⟨mid3, rest3, by rw [← hdi]; exact hdrop, hmid3⟩
                  have := hmin j hfs
                  simp only [List.length_cons, List.length_append]
                  omega
      · have h2 : findFlatAux m cs2 = some sub := by
          simpa [findFlatAux, hc] using h
        obtain ⟨pre, mid, post, hsub, hmid, hcs, hmin⟩ := ih cs2 sub h2
        refine ⟨c :: pre, mid, post, hsub, hmid, by rw [hcs]; simp, ?_⟩
        intro i hflat
        cases i with
        | zero =>
          obtain ⟨mid3, rest3, hdrop, _⟩ := hflat
          simp only [List.drop_zero] at hdrop
          have hclb : c = lbraceC := by
            injection hdrop with h' _
          exact absurd hclb hc
        | succ i' =>
          have hfs : FlatStartAt cs2 i' := by
            obtain ⟨mid3, rest3, hdrop, hmid3⟩ := hflat
            rw [List.drop_succ_cons] at hdrop
            exact ⟨mid3, rest3, hdrop, hmid3⟩
          have := hmin i' hfs
          simp only [List.length_cons]
          omega

/-- Claim C6, counterexample: the claim says salvage locates the FIRST
BALANCED brace-delimited substring.  On the malformed response
nestedExample, the first balanced brace substring is the nested object
(whose decoding is a nested mapping), but the code's regex takes the first
brace pair without nested braces and returns the inner flat mapping — a
different value.  So the claim, as stated, is false at this input. -/
theorem claim_C6_counterexample :
    json_loads nestedExample = .error .jsonDecodeError
    ∧ firstBalancedBraceSpec nestedExample =
        some "\x7b\"a\":\x7b\"k\":\"v\"\x7d\x7d"
    ∧ json_loads "\x7b\"a\":\x7b\"k\":\"v\"\x7d\x7d" =
        .ok (Json.obj [("a", Json.obj [("k", Json.str "v")])])
    ∧ parse_response nestedExample = .ok (Json.obj [("k", Json.str "v")])
    ∧ parse_response nestedExample ≠
        .ok (Json.obj [("a", Json.obj [("k", Json.str "v")])]) := by
  refine ⟨rfl, rfl, rfl, rfl, ?_⟩
  intro hcon
  rw [show parse_response nestedExample = .ok (Json.obj [("k", Json.str "v")])
    from rfl] at hcon
  simp only [Except.ok.injEq, Json.obj.injEq, List.cons.injEq, Prod.mk.injEq] at hcon
  exact absurd hcon.1.1 (by decide)

/-- Claim C6, amended: when top-level decoding of the oracle response
fails, the parser performs a salvage parse that locates the first brace
pair containing no nested braces (the leftmost innermost pair, rather
than the first balanced substring) and decodes it; the malformed response
embedding a flat mapping of x.pdf to Fiction still yields that mapping;
and when the salvage search finds nothing, or its decode fails, the parser
returns the empty mapping without raising. -/
theorem claim_C6 :
    (∀ rt : String, json_loads rt = .error .jsonDecodeError →
        parse_response rt = .ok (salvage_parse rt))
    ∧ (∀ (rt sub : String), findFlat rt = some sub →
        ∃ pre mid post,
          sub.data = lbraceC :: (mid ++ [rbraceC])
          ∧ (∀ c ∈ mid, c ≠ lbraceC ∧ c ≠ rbraceC)
          ∧ rt.data = pre ++ sub.data ++ post
          ∧ ∀ i, FlatStartAt rt.data i → pre.length ≤ i)
    ∧ (∀ (rt sub : String), findFlat rt = some sub →
        salvage_parse rt =
          (match json_loads sub with
           | .ok v => v
           | .error _ => Json.obj []))
    ∧ (∀ rt : String, findFlat rt = none → salvage_parse rt = Json.obj [])
    ∧ parse_response salvageExample =
        .ok (Json.obj [("x.pdf", Json.str "Fiction")]) := by
  refine ⟨?_, ?_, ?_, ?_, rfl⟩
  · intro rt h
    unfold parse_response parse_core
    rw [h]
    rfl
  · intro rt sub h
    unfold findFlat at h
    cases hfa : findFlatAux (rt.length + 1) rt.data with
    | none => rw [hfa] at h; exact absurd h (by simp)
    | some cs =>
      rw [hfa] at h
      have h2 : some (⟨cs⟩ : String) = some sub := h
      have h3 : (⟨cs⟩ : String) = sub := by injection h2
      have hdata : sub.data = cs := by rw [← h3]
      obtain ⟨pre, mid, post, hsub, hmid, hcs, hmin⟩ :=
        findFlatAux_spec (rt.length + 1) rt.data cs hfa
      exact ⟨pre, mid, post, hdata ▸ hsub, hmid, by rw [hdata, ← hcs], hmin⟩
  · intro rt sub h
    unfold salvage_parse
    rw [h]
  · intro rt h
    unfold salvage_parse
    rw [h]

/-- Claim C6 witness: the amended theorem's salvage law applied to the
malformed response embedding the flat mapping. -/
theorem claim_C6_witness :
    json_loads salvageExample = .error .jsonDecodeError
    ∧ parse_response salvageExample = .ok (salvage_parse salvageExample) :=
  ⟨rfl, claim_C6.1 salvageExample rfl⟩

end BookArrange
